import Mathlib

set_option maxRecDepth 4000

/-!
Verification development for the clause discovery, risk aggregation and
query relevance engine of the Legal-AI backend.

Text-processing code (`utils/text_processor.py`), the risk aggregator
(`agents/risk_assessor.py`), the query handler (`agents/query_handler.py`),
the clause post-processor (`agents/legal_analyzer.py`) and the boundary
sanitization of the LLM service (`services/modern_gemini_service.py`) are
shallowly embedded below.  Strings are modelled as lists of characters,
Python floats as exact rationals, Python ints as `Int`, and the external
LLM collaborators as explicit oracle arguments.
-/

/-- Python whitespace class for `str.strip`, `str.split` and the regex `\s`
(the six ASCII whitespace characters; the texts involved are ASCII). -/
def pyWs (c : Char) : Bool :=
  c = ' ' || c = '\t' || c = '\n' || c = '\r' || c = '\x0B' || c = '\x0C'

/-- Python `str.lower` on the ASCII texts involved. -/
def pyLower (l : List Char) : List Char := l.map Char.toLower

/-- Python `str.strip()`: drop leading and trailing whitespace. -/
def trimWs (l : List Char) : List Char :=
  ((l.dropWhile pyWs).reverse.dropWhile pyWs).reverse

/-- Python substring containment `needle in hay`. -/
def hasSub (needle : List Char) : List Char → Bool
  | [] => needle.isEmpty
  | c :: cs => needle.isPrefixOf (c :: cs) || hasSub needle cs

/-- Maximal runs of characters satisfying `p`; with `p` the word-character
class this is `re.findall` of a word pattern, with `p` the negation of
whitespace it is Python `str.split()`. -/
def runsOf (p : Char → Bool) : List Char → List (List Char)
  | [] => []
  | c :: cs =>
    let rest := runsOf p cs
    if p c then
      match cs with
      | [] => [[c]]
      | d :: _ =>
        if p d then
          match rest with
          | w :: ws => (c :: w) :: ws
          | [] => [[c]]
        else [c] :: rest
    else rest

/-- Python `str.split()` (split on whitespace runs, no empty parts). -/
def pySplitWs (l : List Char) : List (List Char) := runsOf (fun c => !pyWs c) l

/-- Word characters of the regex class `\w` (ASCII). -/
def isWordChar (c : Char) : Bool := c.isAlphanum || c = '_'

/-- `re.findall` of maximal word runs, as used for keyword extraction. -/
def wordRuns (l : List Char) : List (List Char) := runsOf isWordChar l

/-- Python `str.split('\n\n')` (used for paragraph segmentation). -/
def splitNN : List Char → List (List Char)
  | [] => [[]]
  | [c] => [[c]]
  | c :: d :: cs =>
    if c = '\n' ∧ d = '\n' then [] :: splitNN cs
    else
      match splitNN (d :: cs) with
      | [] => [[c]]
      | h :: t => (c :: h) :: t

/-- `re.split` where the separator is any maximal run of characters
satisfying `p` (models `re.split` of a bracket class followed by `+`). -/
def splitSepRuns (p : Char → Bool) : List Char → List (List Char)
  | [] => [[]]
  | c :: cs =>
    let rest := splitSepRuns p cs
    if p c then
      match cs with
      | [] => [] :: rest
      | d :: _ => if p d then rest else [] :: rest
    else
      match rest with
      | [] => [[c]]
      | h :: t => (c :: h) :: t

/-- Leftmost non-overlapping `re.sub`: `m l` returns the number of
characters the pattern consumes at the head of `l` (at least one for all
matchers used here), and every match is replaced by `rep`. -/
def reSubAll (m : List Char → Option Nat) (rep : List Char) : List Char → List Char
  | [] => []
  | c :: cs =>
    match m (c :: cs) with
    | some n => rep ++ reSubAll m rep (cs.drop (n - 1))
    | none => c :: reSubAll m rep cs
  termination_by l => l.length
  decreasing_by
    · simp [List.length_drop]; omega
    · simp

/-- Turn a matcher that returns the unconsumed suffix into a consumed-count
matcher for `reSubAll`. -/
def mCount (f : List Char → Option (List Char)) (l : List Char) : Option Nat :=
  (f l).map (fun rest => l.length - rest.length)

/-- Matcher for the regex `\s+` (greedy run of whitespace). -/
def mWsRun : List Char → Option (List Char)
  | [] => none
  | c :: cs => if pyWs c then some ((c :: cs).dropWhile pyWs) else none

/-- Match a literal string at the head. -/
def mLit (lit : List Char) (l : List Char) : Option (List Char) :=
  if lit.isPrefixOf l then some (l.drop lit.length) else none

/-- Match a literal string at the head, ignoring ASCII case
(`re.IGNORECASE`). -/
def mLitCI (lit : List Char) (l : List Char) : Option (List Char) :=
  if lit.isPrefixOf (pyLower (l.take lit.length)) then some (l.drop lit.length)
  else none

/-- Matcher for `\d+` (greedy digit run). -/
def mDigits1 : List Char → Option (List Char)
  | [] => none
  | c :: cs => if c.isDigit then some ((c :: cs).dropWhile Char.isDigit) else none

/-- Matcher for the artifact regex `Page \d+ of \d+` with `re.IGNORECASE`. -/
def mPageOf (l : List Char) : Option (List Char) :=
  (mLitCI "page ".toList l).bind fun r1 =>
    (mDigits1 r1).bind fun r2 =>
      (mLitCI " of ".toList r2).bind fun r3 => mDigits1 r3

/-- Matcher for the artifact regex `\[Page \d+\]` (case sensitive). -/
def mPageBracket (l : List Char) : Option (List Char) :=
  (mLit "[Page ".toList l).bind fun r1 =>
    (mDigits1 r1).bind fun r2 => mLit "]".toList r2

/-- All backtracking alternatives of `\s*\n` at the head of `l`, longest
whitespace prefix first, each given as the unconsumed suffix. -/
def mWsStarNlAll : List Char → List (List Char)
  | [] => []
  | c :: cs =>
    let deeper := if pyWs c then mWsStarNlAll cs else []
    if c = '\n' then deeper ++ [cs] else deeper

/-- Greedy `\s*\n` with no following pattern: first alternative wins. -/
def mWsStarNl (l : List Char) : Option (List Char) := (mWsStarNlAll l).head?

/-- Matcher for the blank-line regex `\n\s*\n\s*\n`, with the backtracking
between the two `\s*` groups that `re` performs. -/
def mTripleBlank : List Char → Option (List Char)
  | [] => none
  | c :: cs => if c = '\n' then (mWsStarNlAll cs).findSome? mWsStarNl else none

/-- `re.sub(r'\r\n', '\n', text)`. -/
def subCRLF : List Char → List Char
  | [] => []
  | [c] => [c]
  | c :: d :: cs =>
    if c = '\r' ∧ d = '\n' then '\n' :: subCRLF cs
    else c :: subCRLF (d :: cs)

/-- `re.sub(r'\r', '\n', text)`. -/
def subCR (l : List Char) : List Char := l.map fun c => if c = '\r' then '\n' else c

/-- `TextProcessor.clean_text` (utils/text_processor.py): collapse
whitespace, strip page artifacts, normalize line breaks, collapse blank
lines, and strip. -/
def clean_text (s : String) : String :=
  if s = "" then ""
  else
    let t1 := reSubAll (mCount mWsRun) [' '] s.toList
    let t2 := reSubAll (mCount mPageOf) [] t1
    let t3 := reSubAll (mCount mPageBracket) [] t2
    let t4 := subCR (subCRLF t3)
    let t5 := reSubAll (mCount mTripleBlank) ['\n', '\n'] t4
    String.mk (trimWs t5)

/-- The paragraph pass of `identify_potential_clauses`:
`[p.strip() for p in text.split('\n\n') if p.strip()]`. -/
def paragraphsOf (s : String) : List (List Char) :=
  ((splitNN s.toList).map trimWs).filter (fun p => !p.isEmpty)

/-! ### Character-level lemmas for `clean_text` -/

theorem mem_reSubAll (m : List Char → Option Nat) (rep : List Char) :
    ∀ (n : Nat) (l : List Char), l.length ≤ n →
      ∀ x ∈ reSubAll m rep l, x ∈ rep ∨ x ∈ l := by
  intro n
  induction n with
  | zero =>
    intro l hl x hx
    rw [List.length_eq_zero.mp (Nat.le_zero.mp hl)] at hx
    simp [reSubAll] at hx
  | succ n ih =>
    intro l hl x hx
    match l with
    | [] => simp [reSubAll] at hx
    | c :: cs =>
      rw [reSubAll] at hx
      cases hm : m (c :: cs) with
      | some k =>
        rw [hm] at hx
        rcases List.mem_append.mp hx with h | h
        · exact Or.inl h
        · have hlen : (cs.drop (k - 1)).length ≤ n := by
            have := List.length_drop (k - 1) cs
            simp at hl
            omega
          rcases ih _ hlen x h with h2 | h2
          · exact Or.inl h2
          · exact Or.inr (List.mem_cons_of_mem c (List.mem_of_mem_drop h2))
      | none =>
        rw [hm] at hx
        rcases List.mem_cons.mp hx with h | h
        · exact Or.inr (h ▸ List.mem_cons_self c cs)
        · have hlen : cs.length ≤ n := by simp at hl; omega
          rcases ih _ hlen x h with h2 | h2
          · exact Or.inl h2
          · exact Or.inr (List.mem_cons_of_mem c h2)

theorem subWs_chars :
    ∀ (n : Nat) (l : List Char), l.length ≤ n →
      ∀ x ∈ reSubAll (mCount mWsRun) [' '] l, x = ' ' ∨ pyWs x = false := by
  intro n
  induction n with
  | zero =>
    intro l hl x hx
    rw [List.length_eq_zero.mp (Nat.le_zero.mp hl)] at hx
    simp [reSubAll] at hx
  | succ n ih =>
    intro l hl x hx
    match l with
    | [] => simp [reSubAll] at hx
    | c :: cs =>
      rw [reSubAll] at hx
      cases hm : mCount mWsRun (c :: cs) with
      | some k =>
        rw [hm] at hx
        rcases List.mem_append.mp hx with h | h
        · simp at h; exact Or.inl h
        · have hlen : (cs.drop (k - 1)).length ≤ n := by
            have := List.length_drop (k - 1) cs
            simp at hl
            omega
          exact ih _ hlen x h
      | none =>
        rw [hm] at hx
        have hc : pyWs c = false := by
          by_contra hcon
          simp only [mCount, mWsRun] at hm
          rw [if_pos (Bool.of_not_eq_false hcon)] at hm
          simp at hm
        rcases List.mem_cons.mp hx with h | h
        · exact Or.inr (h ▸ hc)
        · have hlen : cs.length ≤ n := by simp at hl; omega
          exact ih _ hlen x h


theorem subCRLF_of_no_cr (l : List Char) : (∀ x ∈ l, x ≠ '\r') → subCRLF l = l := by
  induction l using subCRLF.induct with
  | case1 => intro _; rfl
  | case2 c => intro _; rfl
  | case3 c d cs hcd ih =>
    intro h
    exact absurd hcd.1 (h c (by simp))
  | case4 c d cs hcd ih =>
    intro h
    rw [subCRLF, if_neg hcd, ih (fun x hx => h x (List.mem_cons_of_mem c hx))]

theorem subCR_of_no_cr (l : List Char) (h : ∀ x ∈ l, x ≠ '\r') :
    subCR l = l := by
  induction l with
  | nil => rfl
  | cons c cs ih =>
    simp only [subCR, List.map_cons]
    rw [if_neg (h c (List.mem_cons_self _ _))]
    have := ih fun x hx => h x (List.mem_cons_of_mem c hx)
    simp only [subCR] at this
    rw [this]

theorem blankSub_of_no_nl (rep : List Char) (l : List Char)
    (h : ∀ x ∈ l, x ≠ '\n') :
    reSubAll (mCount mTripleBlank) rep l = l := by
  induction l with
  | nil => simp [reSubAll]
  | cons c cs ih =>
    rw [reSubAll]
    have hm : mTripleBlank (c :: cs) = none := by
      simp only [mTripleBlank]
      rw [if_neg]
      exact h c (List.mem_cons_self _ _)
    simp only [mCount, hm]
    simp only [Option.map_none']
    rw [ih fun x hx => h x (List.mem_cons_of_mem c hx)]

theorem mem_trimWs (l : List Char) (x : Char) (hx : x ∈ trimWs l) : x ∈ l := by
  unfold trimWs at hx
  rw [List.mem_reverse] at hx
  have h1 := (List.dropWhile_sublist (l := (l.dropWhile pyWs).reverse) pyWs).mem hx
  rw [List.mem_reverse] at h1
  exact (List.dropWhile_sublist pyWs).mem h1

theorem splitNN_of_no_nl (l : List Char) : (∀ x ∈ l, x ≠ '\n') → splitNN l = [l] := by
  induction l using splitNN.induct with
  | case1 => intro _; rfl
  | case2 c => intro _; rfl
  | case3 c d cs hcd ih =>
    intro h
    exact absurd hcd.1 (h c (by simp))
  | case4 c d cs hcd hnil ih =>
    intro h
    rw [ih (fun x hx => h x (List.mem_cons_of_mem c hx))] at hnil
    simp at hnil
  | case5 c d cs hcd w t heq ih =>
    intro h
    rw [splitNN, if_neg hcd, heq]
    rw [ih (fun x hx => h x (List.mem_cons_of_mem c hx))] at heq
    injection heq with h1 h2
    rw [h1, h2]

/-- C10: `clean_text` returns a string with no newline character: the first
whitespace-collapsing substitution removes every line break, the later
line-break-normalization and blank-line-collapsing substitutions are the
identity on its output, and splitting the cleaned text on blank-line
boundaries as the paragraph pass of `identify_potential_clauses` does
yields at most one paragraph. -/
theorem C10_clean_text_single_paragraph (s : String) :
    (∀ x ∈ (clean_text s).toList, x ≠ '\n')
    ∧ (reSubAll (mCount mTripleBlank) ['\n', '\n']
        (subCR (subCRLF (reSubAll (mCount mPageBracket) []
          (reSubAll (mCount mPageOf) [] (reSubAll (mCount mWsRun) [' '] s.toList)))))
        = reSubAll (mCount mPageBracket) []
            (reSubAll (mCount mPageOf) [] (reSubAll (mCount mWsRun) [' '] s.toList)))
    ∧ (paragraphsOf (clean_text s)).length ≤ 1 := by
  have h1 : ∀ x ∈ reSubAll (mCount mWsRun) [' '] s.toList,
      x = ' ' ∨ pyWs x = false := subWs_chars _ s.toList le_rfl
  have h3 : ∀ x ∈ reSubAll (mCount mPageBracket) []
      (reSubAll (mCount mPageOf) [] (reSubAll (mCount mWsRun) [' '] s.toList)),
      x ≠ '\n' ∧ x ≠ '\r' := by
    intro x hx
    have hx2 := mem_reSubAll (mCount mPageBracket) [] _ _ le_rfl x hx
    simp only [List.not_mem_nil, false_or] at hx2
    have hx1 := mem_reSubAll (mCount mPageOf) [] _ _ le_rfl x hx2
    simp only [List.not_mem_nil, false_or] at hx1
    rcases h1 x hx1 with h | h
    · subst h; exact ⟨by decide, by decide⟩
    · constructor <;> (intro heq; subst heq; simp [pyWs] at h)
  have hid : subCR (subCRLF (reSubAll (mCount mPageBracket) []
      (reSubAll (mCount mPageOf) [] (reSubAll (mCount mWsRun) [' '] s.toList))))
      = reSubAll (mCount mPageBracket) []
          (reSubAll (mCount mPageOf) [] (reSubAll (mCount mWsRun) [' '] s.toList)) := by
    rw [subCRLF_of_no_cr _ (fun x hx => (h3 x hx).2)]
    exact subCR_of_no_cr _ (fun x hx => (h3 x hx).2)
  have hblank : reSubAll (mCount mTripleBlank) ['\n', '\n']
      (subCR (subCRLF (reSubAll (mCount mPageBracket) []
        (reSubAll (mCount mPageOf) [] (reSubAll (mCount mWsRun) [' '] s.toList)))))
      = reSubAll (mCount mPageBracket) []
          (reSubAll (mCount mPageOf) [] (reSubAll (mCount mWsRun) [' '] s.toList)) := by
    rw [hid]
    exact blankSub_of_no_nl _ _ (fun x hx => (h3 x hx).1)
  have hclean : ∀ x ∈ (clean_text s).toList, x ≠ '\n' := by
    by_cases hs : s = ""
    · subst hs; intro x hx; simp [clean_text] at hx
    · intro x hx
      simp only [clean_text, if_neg hs] at hx
      rw [hblank] at hx
      exact (h3 x (mem_trimWs _ x hx)).1
  refine ⟨hclean, hblank, ?_⟩
  unfold paragraphsOf
  rw [splitNN_of_no_nl _ hclean]
  calc (([(clean_text s).toList].map trimWs).filter (fun p => !p.isEmpty)).length
      ≤ ([(clean_text s).toList].map trimWs).length := List.length_filter_le _ _
    _ = 1 := by simp

/-! ### Segmenter and ranker (`TextProcessor.identify_potential_clauses`) -/

/-- Match a single character satisfying `p`. -/
def mCharP (p : Char → Bool) : List Char → Option (List Char)
  | [] => none
  | c :: cs => if p c then some cs else none

/-- The seven anchored section-numbering regexes of
`TextProcessor.section_patterns`, as one boolean match against the start of
a span (`re.match`, case sensitive). -/
def sectionStart (l : List Char) : Bool :=
  (((mDigits1 l).bind (mLit ['.'])).bind mWsRun).isSome
  || ((((mLit ['('] l).bind mDigits1).bind (mLit [')'])).bind mWsRun).isSome
  || (((mCharP (fun c => decide ('A' ≤ c) && decide (c ≤ 'Z')) l).bind
        (mLit ['.'])).bind mWsRun).isSome
  || ((((mLit ['('] l).bind
        (mCharP (fun c => decide ('a' ≤ c) && decide (c ≤ 'z')))).bind
          (mLit [')'])).bind mWsRun).isSome
  || (((mLit "Article".toList l).bind mWsRun).bind mDigits1).isSome
  || (((mLit "Section".toList l).bind mWsRun).bind mDigits1).isSome
  || (((mLit "Chapter".toList l).bind mWsRun).bind mDigits1).isSome

/-- `TextProcessor.clause_indicators`: the fixed vocabulary of legal
indicator substrings, in source order (duplicates included). -/
def clause_indicators : List (List Char) :=
  ([ "payment", "fee", "cost", "charge", "amount", "price", "invoice",
     "billing", "refund", "penalty", "interest", "late fee", "deposit",
     "installment", "due date", "payable", "compensation",
     "termination", "terminate", "end", "expir", "cancel", "dissolution",
     "breach", "default", "notice period", "effective date", "term",
     "duration", "renewal", "extension",
     "liability", "liable", "responsible", "damages", "loss", "injury",
     "harm", "negligence", "fault", "limitation", "exclusion", "cap",
     "consequential", "indirect",
     "indemnif", "hold harmless", "defend", "reimburse", "compensate",
     "make whole",
     "confidential", "proprietary", "non-disclosure", "private", "secret",
     "privileged", "data protection", "privacy", "personal information",
     "trade secret",
     "intellectual property", "copyright", "trademark", "patent",
     "trade mark", "ip", "proprietary rights", "license", "ownership",
     "derivative work",
     "dispute", "arbitration", "litigation", "court", "mediation",
     "resolution", "claim", "action", "proceeding", "lawsuit",
     "legal action",
     "governing law", "jurisdiction", "applicable law", "venue", "forum",
     "choice of law",
     "force majeure", "act of god", "unforeseeable", "beyond control",
     "natural disaster",
     "amendment", "modification", "change", "alter", "revise", "update",
     "written consent",
     "severability", "invalid", "unenforceable", "void", "separate",
     "remainder",
     "agreement", "contract", "party", "parties", "obligation", "duty",
     "right", "warrant", "represent", "covenant", "undertake", "bind",
     "enforce", "comply", "violation", "breach", "remedy", "waiver",
     "consent", "approval", "notice", "delivery",
     "performance", "deliver", "service", "work", "completion",
     "milestone", "deadline", "specification", "standard", "quality",
     "acceptance", "rejection",
     "employment", "employee", "contractor", "service provider", "worker",
     "staff", "benefits", "vacation", "leave", "resignation", "dismissal",
     "non-compete",
     "data", "software", "system", "technology", "database", "security",
     "backup", "maintenance", "support", "update", "upgrade",
     "integration" ] : List String).map String.toList

/-- `TextProcessor._categorize_clause` (the `indicator` argument is unused
in the source as well). -/
def categorize_clause (plower : List Char) (_ind : List Char) : String :=
  if (["payment", "fee", "cost", "charge", "amount"] : List String).any
      (fun w => hasSub w.toList plower) then "payment_terms"
  else if (["termination", "terminate", "end", "expir"] : List String).any
      (fun w => hasSub w.toList plower) then "termination"
  else if (["liability", "liable", "responsible", "damages"] : List String).any
      (fun w => hasSub w.toList plower) then "liability"
  else if (["confidential", "proprietary", "non-disclosure"] : List String).any
      (fun w => hasSub w.toList plower) then "confidentiality"
  else if (["intellectual property", "copyright", "trademark"] : List String).any
      (fun w => hasSub w.toList plower) then "intellectual_property"
  else if (["dispute", "arbitration", "litigation", "court"] : List String).any
      (fun w => hasSub w.toList plower) then "dispute_resolution"
  else if (["governing law", "jurisdiction"] : List String).any
      (fun w => hasSub w.toList plower) then "governing_law"
  else if (["amendment", "modification", "change"] : List String).any
      (fun w => hasSub w.toList plower) then "amendment"
  else "other"

/-- The seven obligation keywords of `_calculate_importance_score`. -/
def legal_keywords : List (List Char) :=
  (["shall", "must", "required", "obligation", "right", "liability",
    "agreement"] : List String).map String.toList

/-- `TextProcessor._calculate_importance_score`. -/
def calculate_importance_score (p : List Char) : ℚ :=
  let plower := pyLower p
  let lengthScore := min ((p.length : ℚ) / 1000) 1 * 0.3
  let keywordCount := (legal_keywords.filter (fun kw => hasSub kw plower)).length
  let keywordScore := ((keywordCount : ℚ) / (legal_keywords.length : ℚ)) * 0.4
  let structScore : ℚ := if sectionStart p then 0.3 else 0
  min (lengthScore + keywordScore + structScore) 1

/-- A candidate clause span as produced by the segmenter (one dictionary of
`identify_potential_clauses`; `source_index` is the paragraph or sentence
index). -/
structure Candidate where
  text : List Char
  source_index : Nat
  indicators : List (List Char)
  potential_type : String
  importance_score : ℚ
  source : String
deriving Repr, DecidableEq

/-- `TextProcessor._analyze_paragraph_for_clauses`. -/
def analyze_paragraph_for_clauses (p : List Char) (i : Nat) : List Candidate :=
  let plower := pyLower p
  match clause_indicators.filter (fun ind => hasSub ind plower) with
  | [] => []
  | ind0 :: rest =>
    [{ text := p, source_index := i, indicators := ind0 :: rest,
       potential_type := categorize_clause plower ind0,
       importance_score := calculate_importance_score p,
       source := "paragraph" }]

/-- `TextProcessor._analyze_sentence_for_clauses`. -/
def analyze_sentence_for_clauses (p : List Char) (i : Nat) : List Candidate :=
  let plower := pyLower p
  match clause_indicators.filter (fun ind => hasSub ind plower) with
  | [] => []
  | ind0 :: rest =>
    [{ text := p, source_index := i, indicators := ind0 :: rest,
       potential_type := categorize_clause plower ind0,
       importance_score := calculate_importance_score p,
       source := "sentence" }]

/-- The lookahead `(?=\s+[A-Z])` of the weak sentence-boundary regex. -/
def lookWsUpper (l : List Char) : Bool :=
  match l with
  | [] => false
  | c :: _ =>
    pyWs c && (match l.dropWhile pyWs with
      | d :: _ => decide ('A' ≤ d) && decide (d ≤ 'Z')
      | [] => false)

/-- `re.split(r'\.(?=\s+[A-Z])', paragraph)`: split at periods followed by
whitespace and an uppercase letter, consuming the period only. -/
def splitDotUpper : List Char → List (List Char)
  | [] => [[]]
  | c :: cs =>
    if c = '.' ∧ lookWsUpper cs then [] :: splitDotUpper cs
    else
      match splitDotUpper cs with
      | [] => [[c]]
      | h :: t => (c :: h) :: t

/-- Python code-point lexicographic order on strings (for `sorted`). -/
def lexLeB : List Char → List Char → Bool
  | [], _ => true
  | _ :: _, [] => false
  | a :: as2, b :: bs =>
    if a < b then true else if a = b then lexLeB as2 bs else false

/-- The near-duplicate signature of `identify_potential_clauses`: the first
ten lowercase words, sorted and joined by single spaces. -/
def clauseSig (c : Candidate) : List Char :=
  List.intercalate [' '] (((pySplitWs (pyLower c.text)).take 10).mergeSort lexLeB)

/-- The signature-based deduplication loop of `identify_potential_clauses`
(`seen` is the set of already-seen signatures). -/
def dedupBySig (seen : List (List Char)) : List Candidate → List Candidate
  | [] => []
  | c :: cs =>
    let sig := clauseSig c
    if sig ∈ seen then dedupBySig seen cs
    else c :: dedupBySig (sig :: seen) cs

/-- Final ranking step: stable sort by descending importance score
(Python `list.sort(key=..., reverse=True)`), truncated to the top 20. -/
def rank_candidates (l : List Candidate) : List Candidate :=
  (l.mergeSort (fun a b => decide (b.importance_score ≤ a.importance_score))).take 20

/-- `TextProcessor.identify_potential_clauses`: paragraph pass, sentence
pass, signature deduplication, importance ranking, cap at 20. -/
def identify_potential_clauses (s : String) : List Candidate :=
  let paragraphs := paragraphsOf s
  let sentences := paragraphs.flatMap
    (fun p => ((splitDotUpper p).map trimWs).filter (fun t => 50 < t.length))
  let fromParagraphs := (paragraphs.enum.filter
      (fun pi => 100 < pi.2.length)).flatMap
    (fun pi => analyze_paragraph_for_clauses pi.2 pi.1)
  let fromSentences := ((sentences.take 50).enum.filter
      (fun si => 100 < si.2.length)).flatMap
    (fun si => analyze_sentence_for_clauses si.2 (si.1 + paragraphs.length))
  rank_candidates (dedupBySig [] (fromParagraphs ++ fromSentences))

theorem rank_candidates_length (l : List Candidate) :
    (rank_candidates l).length ≤ 20 := by
  unfold rank_candidates
  simp [List.length_take]

theorem rank_candidates_sorted (l : List Candidate) :
    (rank_candidates l).Sorted
      (fun a b => b.importance_score ≤ a.importance_score) := by
  unfold rank_candidates
  have hs := @List.sorted_mergeSort Candidate
    (fun a b => decide (b.importance_score ≤ a.importance_score))
    (fun a b c hab hbc => by
      simp only [decide_eq_true_eq] at *
      exact le_trans hbc hab)
    (fun a b => by
      simp only [Bool.or_eq_true, decide_eq_true_eq]
      exact le_total b.importance_score a.importance_score)
    l
  have hp := hs.sublist (List.take_sublist 20 _)
  exact hp.imp (fun h => by simpa using h)

/-- C4: the segmenter plus ranker returns at most 20 candidate clause
spans, ordered by non-increasing importance score, for every input
document text. -/
theorem C4_candidate_cap_and_order (s : String) :
    (identify_potential_clauses s).length ≤ 20
    ∧ (identify_potential_clauses s).Sorted
        (fun a b => b.importance_score ≤ a.importance_score) := by
  unfold identify_potential_clauses
  exact ⟨rank_candidates_length _, rank_candidates_sorted _⟩

/-! ### Data model (`models/document.py`, `models/analysis.py`) -/

/-- The closed `ClauseType` enumeration. -/
inductive ClauseType
  | payment_terms
  | termination
  | liability
  | privacy
  | indemnification
  | dispute_resolution
  | intellectual_property
  | confidentiality
  | force_majeure
  | governing_law
  | amendment
  | severability
  | other
deriving DecidableEq, Repr, Fintype

/-- The string value of each enum member. -/
def ClauseType.value : ClauseType → String
  | .payment_terms => "payment_terms"
  | .termination => "termination"
  | .liability => "liability"
  | .privacy => "privacy"
  | .indemnification => "indemnification"
  | .dispute_resolution => "dispute_resolution"
  | .intellectual_property => "intellectual_property"
  | .confidentiality => "confidentiality"
  | .force_majeure => "force_majeure"
  | .governing_law => "governing_law"
  | .amendment => "amendment"
  | .severability => "severability"
  | .other => "other"

/-- `LegalClause` (the fields the core logic reads or writes; `page_number`
is always `None` in the analyzed flows and is omitted). -/
structure LegalClause where
  clause_id : String
  clause_type : ClauseType
  original_text : String
  simplified_text : String
  risk_score : Int
  risk_explanation : String
  section_number : Option String
  key_terms : List String
  recommendations : List String
  concerns : List String
  obligations : List String
deriving Repr, DecidableEq

/-- `RiskAssessmentResult`; the distribution dictionary is modelled as an
insertion-ordered association list. -/
structure RiskAssessmentResult where
  document_id : String
  overall_risk : ℚ
  high_risk_clauses : List String
  medium_risk_clauses : List String
  low_risk_clauses : List String
  risk_distribution : List (String × Nat)
  recommendations : List String
deriving Repr, DecidableEq

/-! ### Risk assessor (`agents/risk_assessor.py`) -/

/-- `RiskAssessorAgent.clause_weights` (`self.clause_weights.get` has
default 1.0, never reached: the table covers the enumeration). -/
def clause_weights : ClauseType → ℚ
  | .liability => 1.5
  | .indemnification => 1.4
  | .payment_terms => 1.3
  | .termination => 1.2
  | .intellectual_property => 1.1
  | .confidentiality => 1.0
  | .dispute_resolution => 0.9
  | .governing_law => 0.8
  | .amendment => 0.7
  | .severability => 0.6
  | .privacy => 1.0
  | .force_majeure => 0.8
  | .other => 0.5

/-- The structured response of the supplementary risk-assessment
collaborator (`gemini_service.assess_risk`), with `none` fields standing
for keys absent from the returned dictionary. -/
structure RiskResp where
  risk_score : Option Int
  risk_explanation : Option String
  recommendations : Option (List String)

/-- The high-priority clause types of `_enhance_clause_risk_assessments`. -/
def highPriorityType (t : ClauseType) : Prop :=
  t = .liability ∨ t = .indemnification ∨ t = .payment_terms ∨ t = .termination

instance (t : ClauseType) : Decidable (highPriorityType t) := by
  unfold highPriorityType; infer_instance

/-- `RiskAssessorAgent._enhance_clause_risk_assessments`: the collaborator
is an oracle; `none` models a raised exception (caught and logged). -/
def enhance_clause_risk_assessments (oracle : String → Option RiskResp)
    (clauses : List LegalClause) : List LegalClause :=
  clauses.map fun clause =>
    if highPriorityType clause.clause_type ∧ 6 ≤ clause.risk_score then
      match oracle clause.original_text with
      | none => clause
      | some resp =>
        let enhanced_risk := resp.risk_score.getD clause.risk_score
        if |enhanced_risk - clause.risk_score| ≤ 2 then
          let c1 := { clause with risk_score := enhanced_risk }
          let enhanced_explanation := resp.risk_explanation.getD ""
          let c2 := if enhanced_explanation = "" then c1
            else { c1 with risk_explanation := enhanced_explanation }
          let enhanced_recommendations := resp.recommendations.getD []
          if enhanced_recommendations.isEmpty then c2
          else { c2 with recommendations :=
                   c2.recommendations ++ enhanced_recommendations.take 2 }
        else clause
    else clause

/-- The per-clause weight of `_calculate_overall_risk`: base type weight
with the multiplicative high-risk boost. -/
def boosted_weight (clause : LegalClause) : ℚ :=
  let weight := clause_weights clause.clause_type
  if 8 ≤ clause.risk_score then weight * 1.3
  else if 6 ≤ clause.risk_score then weight * 1.1
  else weight

/-- `RiskAssessorAgent._calculate_document_risk_adjustments`. -/
def calculate_document_risk_adjustments (clauses : List LegalClause) : ℚ :=
  let high_risk_count := (clauses.filter (fun c => 7 ≤ c.risk_score)).length
  let high_risk_ratio := (high_risk_count : ℚ) / (clauses.length : ℚ)
  let a1 : ℚ := if high_risk_ratio > 0.3 then 0.5
    else if high_risk_ratio > 0.15 then 0.2 else 0
  let critical_clauses := clauses.filter
    (fun c => c.clause_type = .liability ∨ c.clause_type = .indemnification)
  let a2 := critical_clauses.foldl
    (fun acc c => if 8 ≤ c.risk_score then acc + 0.3
      else if 6 ≤ c.risk_score then acc + 0.1 else acc) (0 : ℚ)
  let has_protective := clauses.any
    (fun c => c.clause_type = .severability ∨ c.clause_type = .force_majeure)
  let a3 : ℚ := if has_protective = false ∧ 5 < clauses.length then 0.2 else 0
  a1 + a2 + a3

/-- `RiskAssessorAgent._calculate_overall_risk`. -/
def calculate_overall_risk (clauses : List LegalClause) : ℚ :=
  if clauses.isEmpty then 5.0
  else
    let sums := clauses.foldl
      (fun (acc : ℚ × ℚ) c =>
        (acc.1 + (c.risk_score : ℚ) * boosted_weight c, acc.2 + boosted_weight c))
      (0, 0)
    let weighted_average := sums.1 / sums.2
    let final_risk := weighted_average + calculate_document_risk_adjustments clauses
    max 1 (min 10 final_risk)

/-- The three risk buckets of `_categorize_clauses_by_risk`. -/
structure RiskCats where
  high : List String
  medium : List String
  low : List String
deriving Repr, DecidableEq

/-- `RiskAssessorAgent._categorize_clauses_by_risk`. -/
def categorize_clauses_by_risk (clauses : List LegalClause) : RiskCats :=
  clauses.foldl
    (fun cats c =>
      if 7 ≤ c.risk_score then { cats with high := cats.high ++ [c.clause_id] }
      else if 4 ≤ c.risk_score then
        { cats with medium := cats.medium ++ [c.clause_id] }
      else { cats with low := cats.low ++ [c.clause_id] })
    { high := [], medium := [], low := [] }

/-- Python dictionary update `d[k] = d.get(k, 0) + 1` on an
insertion-ordered association list. -/
def bumpKey (m : List (String × Nat)) (k : String) : List (String × Nat) :=
  if m.any (fun p => p.1 = k) then
    m.map (fun p => if p.1 = k then (p.1, p.2 + 1) else p)
  else m ++ [(k, 1)]

/-- `RiskAssessorAgent._analyze_risk_distribution`. -/
def analyze_risk_distribution (clauses : List LegalClause) : List (String × Nat) :=
  let base := clauses.foldl (fun m c => bumpKey m (toString c.risk_score)) []
  base ++
    [("total_clauses", clauses.length),
     ("high_risk_count", (clauses.filter (fun c => 7 ≤ c.risk_score)).length),
     ("medium_risk_count",
       (clauses.filter (fun c => 4 ≤ c.risk_score ∧ c.risk_score ≤ 6)).length),
     ("low_risk_count", (clauses.filter (fun c => c.risk_score ≤ 3)).length)]

/-- Python `str.title()` (uppercase letters that start a letter run,
lowercase the rest). -/
def pyTitleGo : Bool → List Char → List Char
  | _, [] => []
  | prevAlpha, c :: cs =>
    (if c.isAlpha then (if prevAlpha then c.toLower else c.toUpper) else c)
      :: pyTitleGo c.isAlpha cs

/-- Python `str.title()`. -/
def pyTitle (l : List Char) : List Char := pyTitleGo false l

/-- `clause_type.value.replace('_', ' ').title()`. -/
def typeTitle (t : ClauseType) : String :=
  String.mk (pyTitle (t.value.toList.map (fun ch => if ch = '_' then ' ' else ch)))

/-- `RiskAssessorAgent._generate_risk_recommendations`.  The missing-type
message iterates a Python set literal; the declaration order
`{termination, dispute_resolution}` is used here. -/
def generate_risk_recommendations (clauses : List LegalClause)
    (overall_risk : ℚ) : List String :=
  let r1 : String :=
    if 8 ≤ overall_risk then
      "CRITICAL: This document poses significant risks. Professional legal review is strongly recommended before signing."
    else if 6 ≤ overall_risk then
      "HIGH RISK: Consider having a lawyer review this document, especially the high-risk clauses."
    else if 4 ≤ overall_risk then
      "MODERATE RISK: Review highlighted clauses carefully and consider seeking advice on unclear terms."
    else
      "LOW RISK: Document appears to have reasonable terms, but still review carefully."
  let high_risk_clauses := clauses.filter (fun c => 7 ≤ c.risk_score)
  let l2 : List String :=
    if high_risk_clauses.isEmpty then []
    else
      (if high_risk_clauses.any (fun c => c.clause_type = .liability) then
        ["Review liability clauses carefully - they may expose you to significant financial risk."]
       else [])
      ++ (if high_risk_clauses.any (fun c => c.clause_type = .payment_terms) then
        ["Pay attention to payment terms - there may be hidden fees or penalties."]
       else [])
      ++ (if high_risk_clauses.any (fun c => c.clause_type = .termination) then
        ["Termination clauses may be unfavorable - understand exit conditions and penalties."]
       else [])
  let clause_types := clauses.map (fun c => c.clause_type)
  let l3 : List String :=
    if clause_types.contains .indemnification
        ∧ clauses.any (fun c =>
            c.clause_type = .indemnification ∧ 7 ≤ c.risk_score) then
      ["Indemnification clauses may require you to cover legal costs - understand your potential exposure."]
    else []
  let missing := ([ClauseType.termination, ClauseType.dispute_resolution].filter
    (fun t => !clause_types.contains t))
  let l4 : List String :=
    if missing.isEmpty = false ∧ 3 < clauses.length then
      ["Consider adding clauses for: "
        ++ String.intercalate ", " (missing.map typeTitle) ++ "."]
    else []
  ([r1] ++ l2 ++ l3 ++ l4).take 8

/-- `RiskAssessorAgent.assess_document_risk` (`document_id` of the result
comes from the first clause id, split at the first underscore). -/
def assess_document_risk (oracle : String → Option RiskResp)
    (clauses : List LegalClause) : RiskAssessmentResult :=
  if clauses.isEmpty then
    { document_id := "unknown", overall_risk := 5.0,
      high_risk_clauses := [], medium_risk_clauses := [],
      low_risk_clauses := [], risk_distribution := [],
      recommendations := ["No clauses found for risk assessment"] }
  else
    let enhanced := enhance_clause_risk_assessments oracle clauses
    let overall := calculate_overall_risk enhanced
    let cats := categorize_clauses_by_risk enhanced
    let dist := analyze_risk_distribution enhanced
    let recs := generate_risk_recommendations enhanced overall
    let document_id := match enhanced with
      | [] => "unknown"
      | c :: _ => String.mk (c.clause_id.toList.takeWhile (fun ch => ch ≠ '_'))
    { document_id := document_id, overall_risk := overall,
      high_risk_clauses := cats.high, medium_risk_clauses := cats.medium,
      low_risk_clauses := cats.low, risk_distribution := dist,
      recommendations := recs }

/-- C3: on an empty clause list the risk aggregator returns its neutral
fallback (the embedded function is total, so no exception is possible):
overall risk 5.0, empty buckets, empty distribution, and exactly one
fallback recommendation string. -/
theorem C3_empty_input_fallback (oracle : String → Option RiskResp) :
    (assess_document_risk oracle []).overall_risk = 5
    ∧ (assess_document_risk oracle []).high_risk_clauses = []
    ∧ (assess_document_risk oracle []).medium_risk_clauses = []
    ∧ (assess_document_risk oracle []).low_risk_clauses = []
    ∧ (assess_document_risk oracle []).risk_distribution = []
    ∧ (assess_document_risk oracle []).recommendations
        = ["No clauses found for risk assessment"]
    ∧ (assess_document_risk oracle []).recommendations.length = 1 := by
  refine ⟨?_, rfl, rfl, rfl, rfl, rfl, rfl⟩
  show (5.0 : ℚ) = 5
  norm_num

/-- The risk score the enhancement pass is specified to produce, written
from the specification: unchanged unless the clause has a high-priority
type, original score at least 6, and the oracle answers with a revision
within 2 points, in which case the revised score is taken. -/
def spec_enhanced_score (oracle : String → Option RiskResp)
    (c : LegalClause) : Int :=
  if highPriorityType c.clause_type ∧ 6 ≤ c.risk_score then
    match oracle c.original_text with
    | some resp =>
      let revised := resp.risk_score.getD c.risk_score
      if |revised - c.risk_score| ≤ 2 then revised else c.risk_score
    | none => c.risk_score
  else c.risk_score

/-- C7: the enhancement pass preserves every clause's risk score except in
exactly the specified case (high-priority type, original score at least 6,
oracle revision within 2 points, in which case the revised score is
used); failed oracle calls and out-of-range revisions leave the score
unchanged. -/
theorem C7_enhancement_score_policy (oracle : String → Option RiskResp)
    (clauses : List LegalClause) :
    (enhance_clause_risk_assessments oracle clauses).map (fun c => c.risk_score)
      = clauses.map (spec_enhanced_score oracle) := by
  unfold enhance_clause_risk_assessments
  rw [List.map_map]
  apply List.map_congr_left
  intro c _
  simp only [Function.comp]
  by_cases h : highPriorityType c.clause_type ∧ 6 ≤ c.risk_score
  · simp only [spec_enhanced_score, if_pos h]
    cases ho : oracle c.original_text with
    | none => rfl
    | some resp =>
      simp only []
      by_cases habs : |resp.risk_score.getD c.risk_score - c.risk_score| ≤ 2
      · simp only [if_pos habs]
        by_cases hexp : resp.risk_explanation.getD "" = "" <;>
          by_cases hrec : (resp.recommendations.getD []).isEmpty <;>
            simp [hexp, hrec]
      · simp only [if_neg habs]
  · simp only [spec_enhanced_score, if_neg h]

/-! ### C1: the overall risk formula -/

theorem foldl_pair_sum (f g : LegalClause → ℚ) (l : List LegalClause) :
    ∀ init : ℚ × ℚ,
      l.foldl (fun acc c => (acc.1 + f c, acc.2 + g c)) init
        = (init.1 + (l.map f).sum, init.2 + (l.map g).sum) := by
  induction l with
  | nil => intro init; simp
  | cons c cs ih =>
    intro init
    rw [List.foldl_cons, ih]
    simp only [List.map_cons, List.sum_cons]
    refine Prod.ext ?_ ?_ <;> simp <;> ring

theorem foldl_crit_sum (l : List LegalClause) :
    ∀ init : ℚ,
      l.foldl (fun acc c => if 8 ≤ c.risk_score then acc + 0.3
        else if 6 ≤ c.risk_score then acc + 0.1 else acc) init
        = init + (l.map (fun c => if 8 ≤ c.risk_score then (0.3 : ℚ)
            else if 6 ≤ c.risk_score then 0.1 else 0)).sum := by
  induction l with
  | nil => intro init; simp
  | cons c cs ih =>
    intro init
    rw [List.foldl_cons]
    by_cases h8 : 8 ≤ c.risk_score
    · rw [if_pos h8, ih]
      simp only [List.map_cons, List.sum_cons, if_pos h8]
      ring
    · by_cases h6 : 6 ≤ c.risk_score
      · rw [if_neg h8, if_pos h6, ih]
        simp only [List.map_cons, List.sum_cons, if_neg h8, if_pos h6]
        ring
      · rw [if_neg h8, if_neg h6, ih]
        simp only [List.map_cons, List.sum_cons, if_neg h8, if_neg h6]
        ring

/-- The per-clause weight as the specification words it: the base type
weight times exactly one boost factor. -/
def spec_clause_weight (c : LegalClause) : ℚ :=
  clause_weights c.clause_type *
    (if 8 ≤ c.risk_score then 1.3 else if 6 ≤ c.risk_score then 1.1 else 1)

theorem boosted_weight_eq_spec : boosted_weight = spec_clause_weight := by
  funext c
  unfold boosted_weight spec_clause_weight
  split_ifs <;> ring

/-- The overall document risk as the specification words it: weighted
average with boosted weights, plus the mutually exclusive ratio tier, plus
the cumulative critical-clause bonuses, plus the flat
missing-protective-clause penalty, clamped to the range 1 to 10. -/
def spec_overall_risk (clauses : List LegalClause) : ℚ :=
  let wavg := (clauses.map (fun c => (c.risk_score : ℚ) * spec_clause_weight c)).sum
      / (clauses.map spec_clause_weight).sum
  let highFrac := ((clauses.filter (fun c => 7 ≤ c.risk_score)).length : ℚ)
      / (clauses.length : ℚ)
  let tier : ℚ := if highFrac > 0.3 then 0.5 else if highFrac > 0.15 then 0.2 else 0
  let critBonus := ((clauses.filter
      (fun c => c.clause_type = .liability ∨ c.clause_type = .indemnification)).map
        (fun c => if 8 ≤ c.risk_score then (0.3 : ℚ)
          else if 6 ≤ c.risk_score ∧ c.risk_score < 8 then 0.1 else 0)).sum
  let protPenalty : ℚ := if 5 < clauses.length ∧
      (∀ c ∈ clauses, c.clause_type ≠ .severability ∧ c.clause_type ≠ .force_majeure)
    then 0.2 else 0
  max 1 (min 10 (wavg + (tier + critBonus + protPenalty)))

theorem crit_bonus_pointwise (c : LegalClause) :
    (if 8 ≤ c.risk_score then (0.3 : ℚ)
      else if 6 ≤ c.risk_score then 0.1 else 0)
    = (if 8 ≤ c.risk_score then (0.3 : ℚ)
        else if 6 ≤ c.risk_score ∧ c.risk_score < 8 then 0.1 else 0) := by
  split_ifs with h1 h2 h3 h3 <;> first | rfl | omega

theorem adjustments_eq_spec (clauses : List LegalClause) :
    calculate_document_risk_adjustments clauses
      = (if ((clauses.filter (fun c => 7 ≤ c.risk_score)).length : ℚ)
            / (clauses.length : ℚ) > 0.3 then (0.5 : ℚ)
         else if ((clauses.filter (fun c => 7 ≤ c.risk_score)).length : ℚ)
            / (clauses.length : ℚ) > 0.15 then 0.2 else 0)
        + ((clauses.filter
            (fun c => c.clause_type = .liability ∨ c.clause_type = .indemnification)).map
              (fun c => if 8 ≤ c.risk_score then (0.3 : ℚ)
                else if 6 ≤ c.risk_score ∧ c.risk_score < 8 then 0.1 else 0)).sum
        + (if 5 < clauses.length ∧
            (∀ c ∈ clauses, c.clause_type ≠ .severability
              ∧ c.clause_type ≠ .force_majeure) then (0.2 : ℚ) else 0) := by
  unfold calculate_document_risk_adjustments
  simp only [foldl_crit_sum, crit_bonus_pointwise, zero_add]
  congr 1
  refine if_congr ?_ rfl rfl
  constructor
  · rintro ⟨hany, hlen⟩
    refine ⟨hlen, ?_⟩
    intro c hc
    have := List.any_eq_false.mp hany c hc
    constructor <;> (intro heq; apply this; simp [heq])
  · rintro ⟨hlen, hall⟩
    refine ⟨?_, hlen⟩
    rw [List.any_eq_false]
    intro c hc
    have := hall c hc
    simp only [decide_eq_true_eq]
    rintro (h | h)
    · exact this.1 h
    · exact this.2 h

/-- C1: for every non-empty clause list, the overall risk equals the
boosted weighted average plus the additive document-level adjustments,
clamped to the range 1 to 10, exactly as the specification states it. -/
theorem C1_overall_risk_formula (clauses : List LegalClause)
    (h : clauses ≠ []) :
    calculate_overall_risk clauses = spec_overall_risk clauses := by
  unfold calculate_overall_risk spec_overall_risk
  rw [if_neg (by simpa using h)]
  simp only [foldl_pair_sum (fun c => (c.risk_score : ℚ) * boosted_weight c)
    boosted_weight, adjustments_eq_spec, boosted_weight_eq_spec, zero_add]
  rw [foldl_pair_sum (fun c => (c.risk_score : ℚ) * spec_clause_weight c)
    spec_clause_weight]
  simp

/-- Sample clause constructor for concrete witness checks. -/
def mkClause (id : String) (t : ClauseType) (rs : Int) : LegalClause :=
  { clause_id := id, clause_type := t, original_text := "x",
    simplified_text := "", risk_score := rs, risk_explanation := "",
    section_number := none, key_terms := [], recommendations := [],
    concerns := [], obligations := [] }

theorem C1_overall_risk_formula_witness :
    ([mkClause "d_1" .liability 9, mkClause "d_2" .payment_terms 5] ≠ [])
    ∧ calculate_overall_risk
        [mkClause "d_1" .liability 9, mkClause "d_2" .payment_terms 5]
      = spec_overall_risk
        [mkClause "d_1" .liability 9, mkClause "d_2" .payment_terms 5] :=
  ⟨by decide, C1_overall_risk_formula _ (by decide)⟩

/-! ### C2: the risk buckets partition the clause ids -/

theorem categorize_foldl (cs : List LegalClause) :
    ∀ init : RiskCats,
      cs.foldl
        (fun cats c =>
          if 7 ≤ c.risk_score then { cats with high := cats.high ++ [c.clause_id] }
          else if 4 ≤ c.risk_score then
            { cats with medium := cats.medium ++ [c.clause_id] }
          else { cats with low := cats.low ++ [c.clause_id] })
        init
      = { high := init.high
            ++ (cs.filter (fun c => 7 ≤ c.risk_score)).map (fun c => c.clause_id),
          medium := init.medium
            ++ (cs.filter (fun c => 4 ≤ c.risk_score ∧ c.risk_score < 7)).map
                (fun c => c.clause_id),
          low := init.low
            ++ (cs.filter (fun c => c.risk_score < 4)).map (fun c => c.clause_id) } := by
  induction cs with
  | nil => intro init; simp
  | cons c cs ih =>
    intro init
    rw [List.foldl_cons]
    by_cases h7 : 7 ≤ c.risk_score
    · rw [if_pos h7, ih]
      rw [List.filter_cons_of_pos (by simpa using h7),
        List.filter_cons_of_neg (by simp; omega),
        List.filter_cons_of_neg (by simp; omega)]
      simp
    · by_cases h4 : 4 ≤ c.risk_score
      · rw [if_neg h7, if_pos h4, ih]
        rw [List.filter_cons_of_neg (by simpa using h7),
          List.filter_cons_of_pos (by simp; omega),
          List.filter_cons_of_neg (by simp; omega)]
        simp
      · rw [if_neg h7, if_neg h4, ih]
        rw [List.filter_cons_of_neg (by simpa using h7),
          List.filter_cons_of_neg (by simp; omega),
          List.filter_cons_of_pos (by simp; omega)]
        simp

theorem categorize_eq_filters (cs : List LegalClause) :
    categorize_clauses_by_risk cs
      = { high := (cs.filter (fun c => 7 ≤ c.risk_score)).map (fun c => c.clause_id),
          medium := (cs.filter (fun c => 4 ≤ c.risk_score ∧ c.risk_score < 7)).map
              (fun c => c.clause_id),
          low := (cs.filter (fun c => c.risk_score < 4)).map (fun c => c.clause_id) } := by
  unfold categorize_clauses_by_risk
  rw [categorize_foldl]
  simp

/-- C2: for clause lists with distinct clause ids and integer risk scores
in the range 1 to 10, the high, medium and low bucket id lists
characterize exactly the clauses with score at least 7, between 4 and 6,
and at most 3 respectively, they jointly cover exactly the input id set,
and they are pairwise disjoint. -/
theorem C2_bucket_partition (clauses : List LegalClause)
    (hnodup : (clauses.map (fun c => c.clause_id)).Nodup)
    (hrange : ∀ c ∈ clauses, 1 ≤ c.risk_score ∧ c.risk_score ≤ 10) :
    (∀ c ∈ clauses,
      (c.clause_id ∈ (categorize_clauses_by_risk clauses).high
          ↔ 7 ≤ c.risk_score)
      ∧ (c.clause_id ∈ (categorize_clauses_by_risk clauses).medium
          ↔ (4 ≤ c.risk_score ∧ c.risk_score ≤ 6))
      ∧ (c.clause_id ∈ (categorize_clauses_by_risk clauses).low
          ↔ c.risk_score ≤ 3))
    ∧ (∀ s : String,
        (s ∈ (categorize_clauses_by_risk clauses).high
          ∨ s ∈ (categorize_clauses_by_risk clauses).medium
          ∨ s ∈ (categorize_clauses_by_risk clauses).low)
        ↔ s ∈ clauses.map (fun c => c.clause_id))
    ∧ (categorize_clauses_by_risk clauses).high.Disjoint
        (categorize_clauses_by_risk clauses).medium
    ∧ (categorize_clauses_by_risk clauses).high.Disjoint
        (categorize_clauses_by_risk clauses).low
    ∧ (categorize_clauses_by_risk clauses).medium.Disjoint
        (categorize_clauses_by_risk clauses).low := by
  have hinj := List.inj_on_of_nodup_map hnodup
  rw [categorize_eq_filters]
  refine ⟨?_, ?_, ?_, ?_, ?_⟩
  · intro c hc
    refine ⟨⟨?_, ?_⟩, ⟨?_, ?_⟩, ⟨?_, ?_⟩⟩
    · intro h
      simp only [List.mem_map, List.mem_filter, decide_eq_true_eq] at h
      obtain ⟨c2, ⟨hc2, hp⟩, heq⟩ := h
      rw [hinj hc2 hc heq] at hp
      exact hp
    · intro h
      simp only [List.mem_map, List.mem_filter, decide_eq_true_eq]
      exact ⟨c, ⟨hc, h⟩, rfl⟩
    · intro h
      simp only [List.mem_map, List.mem_filter, decide_eq_true_eq] at h
      obtain ⟨c2, ⟨hc2, hp⟩, heq⟩ := h
      rw [hinj hc2 hc heq] at hp
      omega
    · intro h
      simp only [List.mem_map, List.mem_filter, decide_eq_true_eq]
      exact ⟨c, ⟨hc, by omega⟩, rfl⟩
    · intro h
      simp only [List.mem_map, List.mem_filter, decide_eq_true_eq] at h
      obtain ⟨c2, ⟨hc2, hp⟩, heq⟩ := h
      rw [hinj hc2 hc heq] at hp
      omega
    · intro h
      simp only [List.mem_map, List.mem_filter, decide_eq_true_eq]
      exact ⟨c, ⟨hc, by omega⟩, rfl⟩
  · intro s
    constructor
    · rintro (h | h | h) <;>
      · simp only [List.mem_map, List.mem_filter, decide_eq_true_eq] at h
        obtain ⟨c2, ⟨hc2, _⟩, heq⟩ := h
        exact heq ▸ List.mem_map_of_mem _ hc2
    · intro h
      simp only [List.mem_map] at h
      obtain ⟨c2, hc2, heq⟩ := h
      by_cases h7 : 7 ≤ c2.risk_score
      · exact Or.inl (by
          simp only [List.mem_map, List.mem_filter, decide_eq_true_eq]
          exact ⟨c2, ⟨hc2, h7⟩, heq⟩)
      · by_cases h4 : 4 ≤ c2.risk_score
        · exact Or.inr (Or.inl (by
            simp only [List.mem_map, List.mem_filter, decide_eq_true_eq]
            exact ⟨c2, ⟨hc2, by omega⟩, heq⟩))
        · exact Or.inr (Or.inr (by
            simp only [List.mem_map, List.mem_filter, decide_eq_true_eq]
            exact ⟨c2, ⟨hc2, by omega⟩, heq⟩))
  · intro s hs1 hs2
    simp only [List.mem_map, List.mem_filter, decide_eq_true_eq] at hs1 hs2
    obtain ⟨c1, ⟨hm1, hp1⟩, he1⟩ := hs1
    obtain ⟨c2, ⟨hm2, hp2⟩, he2⟩ := hs2
    have := hinj hm1 hm2 (he1.trans he2.symm)
    subst this
    omega
  · intro s hs1 hs2
    simp only [List.mem_map, List.mem_filter, decide_eq_true_eq] at hs1 hs2
    obtain ⟨c1, ⟨hm1, hp1⟩, he1⟩ := hs1
    obtain ⟨c2, ⟨hm2, hp2⟩, he2⟩ := hs2
    have := hinj hm1 hm2 (he1.trans he2.symm)
    subst this
    omega
  · intro s hs1 hs2
    simp only [List.mem_map, List.mem_filter, decide_eq_true_eq] at hs1 hs2
    obtain ⟨c1, ⟨hm1, hp1⟩, he1⟩ := hs1
    obtain ⟨c2, ⟨hm2, hp2⟩, he2⟩ := hs2
    have := hinj hm1 hm2 (he1.trans he2.symm)
    subst this
    omega

theorem C2_bucket_partition_witness :
    (([mkClause "a" .liability 9, mkClause "b" .other 5,
        mkClause "c" .privacy 2].map (fun c => c.clause_id)).Nodup)
    ∧ (categorize_clauses_by_risk
        [mkClause "a" .liability 9, mkClause "b" .other 5,
          mkClause "c" .privacy 2]).high.Disjoint
        (categorize_clauses_by_risk
          [mkClause "a" .liability 9, mkClause "b" .other 5,
            mkClause "c" .privacy 2]).medium :=
  ⟨by decide,
    (C2_bucket_partition _ (by decide) (by decide)).2.2.1⟩

/-! ### Query relevance engine (`agents/query_handler.py`) -/

/-- One entry of `QueryHandlerAgent.question_patterns`: the literal
alternation branches of the regex, the `\w+` words occurring in the regex
(used for the weaker text match), and the mapped clause types. -/
structure QPattern where
  branches : List (List Char)
  words : List (List Char)
  types : List ClauseType

/-- `QueryHandlerAgent.question_patterns`, in source order. -/
def question_patterns : List QPattern :=
  [ { branches := (["payment", "pay", "fee", "cost", "money", "charge",
        "bill"] : List String).map String.toList,
      words := (["payment", "pay", "fee", "cost", "money", "charge",
        "bill"] : List String).map String.toList,
      types := [.payment_terms] },
    { branches := (["terminat", "end", "cancel", "break", "exit",
        "quit"] : List String).map String.toList,
      words := (["terminat", "end", "cancel", "break", "exit",
        "quit"] : List String).map String.toList,
      types := [.termination] },
    { branches := (["liability", "liable", "responsible", "damage",
        "fault"] : List String).map String.toList,
      words := (["liability", "liable", "responsible", "damage",
        "fault"] : List String).map String.toList,
      types := [.liability] },
    { branches := (["confidential", "secret", "private",
        "disclosure"] : List String).map String.toList,
      words := (["confidential", "secret", "private",
        "disclosure"] : List String).map String.toList,
      types := [.confidentiality] },
    { branches := (["intellectual property", "copyright", "trademark",
        "patent"] : List String).map String.toList,
      words := (["intellectual", "property", "copyright", "trademark",
        "patent"] : List String).map String.toList,
      types := [.intellectual_property] },
    { branches := (["dispute", "conflict", "disagree", "arbitrat", "court",
        "legal"] : List String).map String.toList,
      words := (["dispute", "conflict", "disagree", "arbitrat", "court",
        "legal"] : List String).map String.toList,
      types := [.dispute_resolution] },
    { branches := (["law", "jurisdiction", "govern",
        "legal"] : List String).map String.toList,
      words := (["law", "jurisdiction", "govern",
        "legal"] : List String).map String.toList,
      types := [.governing_law] },
    { branches := (["change", "modify", "amend",
        "alter"] : List String).map String.toList,
      words := (["change", "modify", "amend",
        "alter"] : List String).map String.toList,
      types := [.amendment] },
    { branches := (["indemnif", "hold harmless",
        "protect"] : List String).map String.toList,
      words := (["indemnif", "hold", "harmless",
        "protect"] : List String).map String.toList,
      types := [.indemnification] } ]

/-- The stopword set of `_find_relevant_clauses`. -/
def common_words : List (List Char) :=
  ([ "the", "a", "an", "and", "or", "but", "in", "on", "at", "to", "for",
     "of", "with", "by", "is", "are", "was", "were", "be", "been", "have",
     "has", "had", "do", "does", "did", "will", "would", "could", "should",
     "may", "might", "can", "must", "shall" ] : List String).map String.toList

/-- `set(re.findall(r'\b\w+\b', text))`: the distinct maximal word runs. -/
def keywordSet (l : List Char) : List (List Char) := (wordRuns l).dedup

/-- The per-clause relevance score of
`QueryHandlerAgent._find_relevant_clauses` (pattern-topic match, stopword
filtered keyword overlap, high-risk boost, simplified-text overlap). -/
def relevance_score (query : String) (clause : LegalClause) : ℚ :=
  let query_lower := pyLower query.toList
  let s1 : ℚ := (question_patterns.map (fun p =>
    if p.branches.any (fun b => hasSub b query_lower) then
      if p.types.contains clause.clause_type then (3.0 : ℚ)
      else if p.words.any
          (fun w => hasSub w (pyLower clause.original_text.toList)) then 1.0
      else 0
    else 0)).sum
  let query_keywords := (keywordSet query_lower).filter
    (fun w => !common_words.contains w)
  let clause_keywords := (keywordSet (pyLower clause.original_text.toList)).filter
    (fun w => !common_words.contains w)
  let s2 : ℚ :=
    if query_keywords ≠ [] ∧ clause_keywords ≠ [] then
      ((query_keywords.filter (fun w => clause_keywords.contains w)).length : ℚ)
        / (query_keywords.length : ℚ) * 2.0
    else 0
  let s3 : ℚ := if 7 ≤ clause.risk_score then 0.5 else 0
  let s4 : ℚ :=
    if clause.simplified_text ≠ "" then
      let simplified_keywords :=
        (keywordSet (pyLower clause.simplified_text.toList)).filter
          (fun w => !common_words.contains w)
      if query_keywords ≠ [] ∧ simplified_keywords ≠ [] then
        ((query_keywords.filter
            (fun w => simplified_keywords.contains w)).length : ℚ)
          / (query_keywords.length : ℚ) * 1.5
      else 0
    else 0
  s1 + s2 + s3 + s4

/-- `QueryHandlerAgent._find_relevant_clauses`: score, stable sort
descending, threshold 0.5, cap 5, top-2 fallback. -/
def find_relevant_clauses (query : String)
    (legal_clauses : List LegalClause) : List LegalClause :=
  let clause_scores := legal_clauses.map (fun c => (c, relevance_score query c))
  let sorted := clause_scores.mergeSort (fun a b => decide (b.2 ≤ a.2))
  let relevant := ((sorted.filter (fun p => decide ((0.5 : ℚ) < p.2))).map
    (fun p => p.1)).take 5
  if relevant.isEmpty ∧ clause_scores.isEmpty = false then
    match sorted with
    | [] => []
    | [p1] => [p1.1]
    | p1 :: p2 :: _ => [p1.1, p2.1]
  else relevant

/-- `QueryHandlerAgent._extract_relevant_context`: clause texts tagged with
their title-cased type, up to three additional matching document
sentences, joined with blank lines and truncated at 3000 characters with a
trailing ellipsis. -/
def extract_relevant_context (query : String) (document_text : String)
    (relevant_clauses : List LegalClause) : String :=
  let clause_parts := relevant_clauses.map (fun c =>
    "[".toList ++ (typeTitle c.clause_type).toList ++ "] ".toList
      ++ c.original_text.toList)
  let query_keywords := keywordSet (pyLower query.toList)
  let sentences := splitSepRuns (fun ch => ch = '.' || ch = '!' || ch = '?')
    document_text.toList
  let relevant_sentences := (sentences.map trimWs).filter (fun s =>
    decide (20 ≤ s.length)
    && !query_keywords.isEmpty
    && !(keywordSet (pyLower s)).isEmpty
    && decide (2 ≤ (query_keywords.filter
        (fun w => (keywordSet (pyLower s)).contains w)).length)
    && !(relevant_clauses.any
        (fun c => hasSub (pyLower s) (pyLower c.original_text.toList))))
  let context_parts := clause_parts ++ relevant_sentences.take 3
  let full_context := List.intercalate "\n\n".toList context_parts
  if 3000 < full_context.length then
    String.mk (full_context.take 3000 ++ "...".toList)
  else String.mk full_context

/-- A clause whose original text alone exceeds the context cap. -/
def big_clause : LegalClause :=
  { mkClause "d_0" .other 5 with
    original_text := String.mk (List.replicate 3000 'a') }

theorem intercalate_single (sep x : List Char) : List.intercalate sep [x] = x := by
  simp [List.intercalate]

/-- C6 counterexample: the assembled context can exceed 3000 characters —
on a 3000-character clause the result is 3003 characters long (the first
3000 characters plus the ellipsis), refuting the claim that the context
string is at most 3000 characters long. -/
theorem C6_context_cap_counterexample :
    3000 < (extract_relevant_context "q" "" [big_clause]).length
    ∧ (extract_relevant_context "q" "" [big_clause]).length = 3003 := by
  have hparts : extract_relevant_context "q" "" [big_clause]
      = (if 3000 < (List.intercalate "\n\n".toList
            ["[Other] ".toList ++ List.replicate 3000 'a']).length
         then String.mk ((List.intercalate "\n\n".toList
            ["[Other] ".toList ++ List.replicate 3000 'a']).take 3000
           ++ "...".toList)
         else String.mk (List.intercalate "\n\n".toList
            ["[Other] ".toList ++ List.replicate 3000 'a'])) := rfl
  rw [intercalate_single] at hparts
  have hflen : ("[Other] ".toList ++ List.replicate 3000 'a').length = 3008 := by
    rw [List.length_append, List.length_replicate]
    rfl
  rw [if_pos (by rw [hflen]; norm_num)] at hparts
  have hlen : (extract_relevant_context "q" "" [big_clause]).length = 3003 := by
    rw [hparts]
    show (("[Other] ".toList ++ List.replicate 3000 'a').take 3000
      ++ "...".toList).length = 3003
    rw [List.length_append, List.length_take, hflen]
    norm_num
  exact ⟨by rw [hlen]; norm_num, hlen⟩

/-- C6 amended: the assembled context is at most 3003 characters long, and
whenever it exceeds 3000 characters it consists of the first 3000
characters of the combined context followed by exactly the three-character
ellipsis. -/
theorem C6_context_cap_amended (query document_text : String)
    (relevant_clauses : List LegalClause) :
    (extract_relevant_context query document_text relevant_clauses).length ≤ 3003
    ∧ (3000 < (extract_relevant_context query document_text relevant_clauses).length
        → (extract_relevant_context query document_text
            relevant_clauses).toList.drop 3000 = "...".toList) := by
  obtain ⟨full, hfull⟩ : ∃ l,
      extract_relevant_context query document_text relevant_clauses
        = (if 3000 < l.length then String.mk (l.take 3000 ++ "...".toList)
           else String.mk l) := ⟨_, rfl⟩
  rw [hfull]
  by_cases h : 3000 < full.length
  · rw [if_pos h]
    have htake : (full.take 3000).length = 3000 := by
      rw [List.length_take]
      omega
    have hlen : (String.mk (full.take 3000 ++ "...".toList)).length = 3003 := by
      show (full.take 3000 ++ "...".toList).length = 3003
      rw [List.length_append, htake]
      rfl
    refine ⟨by omega, fun _ => ?_⟩
    show (full.take 3000 ++ "...".toList).drop 3000 = "...".toList
    nth_rewrite 1 [← htake]
    rw [List.drop_left]
  · rw [if_neg h]
    have hlen : (String.mk full).length = full.length := rfl
    exact ⟨by omega, fun hcon => by rw [hlen] at hcon; omega⟩

theorem filter_of_map {α β : Type} (f : α → β) (p : β → Bool) (l : List α) :
    (l.map f).filter p = (l.filter (fun a => p (f a))).map f := by
  induction l with
  | nil => rfl
  | cons a l ih =>
    simp only [List.map_cons, List.filter_cons]
    by_cases h : p (f a) <;> simp [h, ih]

/-- C5: the relevance selection returns at most five clauses, never
returns an empty list for a non-empty input, returns them in
non-increasing score order, and returns exactly the clauses scoring above
the 0.5 threshold capped at five when any exist: the above-threshold
clauses split (as a multiset) into the returned list and a dropped rest
every element of which scores no higher than every returned clause, with
the returned list a permutation of the whole above-threshold set whenever
at most five qualify.  When no clause exceeds the threshold the fallback
returns the top-scoring clause, plus the second-highest-scoring clause
when at least two exist: the input splits into the returned list and a
remainder every element of which scores no higher than every returned
clause. -/
theorem C5_relevant_selection (query : String) (clauses : List LegalClause) :
    (find_relevant_clauses query clauses).length ≤ 5
    ∧ (clauses ≠ [] → find_relevant_clauses query clauses ≠ [])
    ∧ (find_relevant_clauses query clauses).Sorted
        (fun a b => relevance_score query b ≤ relevance_score query a)
    ∧ ((∃ c ∈ clauses, (0.5 : ℚ) < relevance_score query c) →
        (∀ c ∈ find_relevant_clauses query clauses,
          c ∈ clauses ∧ (0.5 : ℚ) < relevance_score query c)
        ∧ (find_relevant_clauses query clauses).length
            = min 5 ((clauses.filter
                (fun c => decide ((0.5 : ℚ) < relevance_score query c))).length)
        ∧ ((clauses.filter
              (fun c => decide ((0.5 : ℚ) < relevance_score query c))).length ≤ 5 →
            (find_relevant_clauses query clauses).Perm
              (clauses.filter
                (fun c => decide ((0.5 : ℚ) < relevance_score query c))))
        ∧ (∃ dropped,
            (clauses.filter
              (fun c => decide ((0.5 : ℚ) < relevance_score query c))).Perm
                (find_relevant_clauses query clauses ++ dropped)
            ∧ ∀ a ∈ find_relevant_clauses query clauses, ∀ b ∈ dropped,
                relevance_score query b ≤ relevance_score query a))
    ∧ ((∀ c ∈ clauses, relevance_score query c ≤ 0.5) → clauses ≠ [] →
        (∃ c1, (find_relevant_clauses query clauses).head? = some c1
          ∧ c1 ∈ clauses
          ∧ ∀ c ∈ clauses, relevance_score query c ≤ relevance_score query c1)
        ∧ (find_relevant_clauses query clauses).length = min 2 clauses.length
        ∧ (∀ c ∈ find_relevant_clauses query clauses, c ∈ clauses)
        ∧ (∃ remaining,
            clauses.Perm (find_relevant_clauses query clauses ++ remaining)
            ∧ ∀ a ∈ find_relevant_clauses query clauses, ∀ b ∈ remaining,
                relevance_score query b ≤ relevance_score query a)) := by
  obtain ⟨scored, sorted, relevant, hscored, hsorteddef, hreldef, hfind⟩ :
      ∃ scored sorted relevant,
        scored = clauses.map (fun c => (c, relevance_score query c))
        ∧ sorted = scored.mergeSort (fun a b => decide (b.2 ≤ a.2))
        ∧ relevant = ((sorted.filter (fun p => decide ((0.5 : ℚ) < p.2))).map
            (fun p => p.1)).take 5
        ∧ find_relevant_clauses query clauses
            = (if relevant.isEmpty ∧ scored.isEmpty = false then
                (match sorted with
                 | [] => []
                 | [p1] => [p1.1]
                 | p1 :: p2 :: _ => [p1.1, p2.1])
               else relevant) :=
    ⟨_, _, _, rfl, rfl, rfl, rfl⟩
  have hperm : sorted.Perm scored := by
    rw [hsorteddef]; exact List.mergeSort_perm _ _
  have hmem2 : ∀ p ∈ sorted, p.1 ∈ clauses ∧ p.2 = relevance_score query p.1 := by
    intro p hp
    have hps : p ∈ scored := hperm.mem_iff.mp hp
    rw [hscored] at hps
    simp only [List.mem_map] at hps
    obtain ⟨c, hc, hpc⟩ := hps
    rw [← hpc]
    exact ⟨hc, rfl⟩
  have hpw : sorted.Pairwise (fun a b => b.2 ≤ a.2) := by
    have h := @List.sorted_mergeSort (LegalClause × ℚ)
      (fun a b => decide (b.2 ≤ a.2))
      (fun a b c hab hbc => by
        simp only [decide_eq_true_eq] at *
        exact le_trans hbc hab)
      (fun a b => by
        simp only [Bool.or_eq_true, decide_eq_true_eq]
        exact le_total b.2 a.2)
      scored
    rw [← hsorteddef] at h
    exact h.imp (fun hab => by simpa using hab)
  have hlen_cs : sorted.length = clauses.length := by
    rw [hperm.length_eq, hscored, List.length_map]
  have hrel_len : relevant.length ≤ 5 := by
    rw [hreldef]; simp [List.length_take]
  have hrel_mem : ∀ c ∈ relevant,
      c ∈ clauses ∧ (0.5 : ℚ) < relevance_score query c := by
    intro c hc
    rw [hreldef] at hc
    have hc2 := List.mem_of_mem_take hc
    simp only [List.mem_map, List.mem_filter, decide_eq_true_eq] at hc2
    obtain ⟨p, ⟨hpmem, hgt⟩, hp1⟩ := hc2
    obtain ⟨hpc, hps⟩ := hmem2 p hpmem
    rw [← hp1]
    exact ⟨hpc, by rw [← hps]; exact hgt⟩
  have hMpw : ((sorted.filter (fun p => decide ((0.5 : ℚ) < p.2))).map
      (fun p => p.1)).Pairwise
        (fun a b => relevance_score query b ≤ relevance_score query a) := by
    have h1 : (sorted.filter (fun p => decide ((0.5 : ℚ) < p.2))).Pairwise
        (fun a b => b.2 ≤ a.2) := hpw.sublist (List.filter_sublist _)
    rw [List.pairwise_map]
    refine List.Pairwise.imp_of_mem ?_ h1
    intro a b ha hb hab
    obtain ⟨_, ha2⟩ := hmem2 a (List.mem_of_mem_filter ha)
    obtain ⟨_, hb2⟩ := hmem2 b (List.mem_of_mem_filter hb)
    rw [← ha2, ← hb2]
    exact hab
  have hrel_sorted : relevant.Sorted
      (fun a b => relevance_score query b ≤ relevance_score query a) := by
    rw [hreldef]
    exact hMpw.sublist (List.take_sublist 5 _)
  have hspw : (sorted.map (fun p => p.1)).Pairwise
      (fun a b => relevance_score query b ≤ relevance_score query a) := by
    rw [List.pairwise_map]
    refine List.Pairwise.imp_of_mem ?_ hpw
    intro a b ha hb hab
    obtain ⟨_, ha2⟩ := hmem2 a ha
    obtain ⟨_, hb2⟩ := hmem2 b hb
    rw [← ha2, ← hb2]
    exact hab
  have hall_perm : clauses.Perm (sorted.map (fun p => p.1)) := by
    have h1 : (sorted.map (fun p => p.1)).Perm (scored.map (fun p => p.1)) :=
      hperm.map _
    have h2 : scored.map (fun p => p.1) = clauses := by
      rw [hscored, List.map_map]
      have hid : ((fun p : LegalClause × ℚ => p.1)
          ∘ fun c => (c, relevance_score query c)) = id := rfl
      rw [hid, List.map_id]
    rw [h2] at h1
    exact h1.symm
  have hfilter_len : (sorted.filter (fun p => decide ((0.5 : ℚ) < p.2))).length
      = (clauses.filter
          (fun c => decide ((0.5 : ℚ) < relevance_score query c))).length := by
    rw [(hperm.filter _).length_eq, hscored, filter_of_map, List.length_map]
  have hfilter_perm : ((sorted.filter (fun p => decide ((0.5 : ℚ) < p.2))).map
      (fun p => p.1)).Perm
        (clauses.filter (fun c => decide ((0.5 : ℚ) < relevance_score query c))) := by
    refine ((hperm.filter _).map _).trans ?_
    rw [hscored, filter_of_map, List.map_map]
    have hid : ((fun p : LegalClause × ℚ => p.1)
        ∘ fun c => (c, relevance_score query c)) = id := rfl
    rw [hid, List.map_id]
  have hrel_ne_of_ex : (∃ c ∈ clauses, (0.5 : ℚ) < relevance_score query c) →
      relevant ≠ [] := by
    rintro ⟨c, hc, hgt⟩
    rw [hreldef]
    have hmemf : (c, relevance_score query c)
        ∈ sorted.filter (fun p => decide ((0.5 : ℚ) < p.2)) := by
      rw [List.mem_filter]
      refine ⟨hperm.mem_iff.mpr ?_, by simpa using hgt⟩
      rw [hscored]
      exact List.mem_map_of_mem _ hc
    intro hcon
    have hlen0 : (((sorted.filter (fun p => decide ((0.5 : ℚ) < p.2))).map
        (fun p => p.1)).take 5).length = 0 := by rw [hcon]; rfl
    rw [List.length_take, List.length_map] at hlen0
    have : 0 < (sorted.filter (fun p => decide ((0.5 : ℚ) < p.2))).length :=
      List.length_pos.mpr (List.ne_nil_of_mem hmemf)
    omega
  by_cases hcs : clauses = []
  · subst hcs
    have hre : relevant = [] := by
      rw [hreldef, hsorteddef, hscored]
      simp
    have hfindv : find_relevant_clauses query [] = [] := by
      rw [hfind, hscored]
      simp [hre]
    rw [hfindv]
    refine ⟨by simp, by simp, by simp, ?_, by simp⟩
    rintro ⟨c, hc, _⟩
    simp at hc
  · by_cases hre : relevant = []
    · -- fallback path
      have hsne : sorted ≠ [] := by
        intro hcon
        rw [hcon] at hlen_cs
        exact hcs (List.eq_nil_of_length_eq_zero hlen_cs.symm)
      obtain ⟨p1, rest, hsx⟩ := List.exists_cons_of_ne_nil hsne
      have hcond : relevant.isEmpty ∧ scored.isEmpty = false := by
        constructor
        · rw [hre]; rfl
        · rw [hscored, List.isEmpty_eq_false]
          simpa using hcs
      have hmax : ∀ c ∈ clauses,
          relevance_score query c ≤ relevance_score query p1.1 := by
        intro c hc
        have hpmem : (c, relevance_score query c) ∈ sorted := by
          refine hperm.mem_iff.mpr ?_
          rw [hscored]
          exact List.mem_map_of_mem _ hc
        have hp12 : p1.2 = relevance_score query p1.1 :=
          (hmem2 p1 (by rw [hsx]; exact List.mem_cons_self _ _)).2
        rw [hsx] at hpmem
        rcases List.mem_cons.mp hpmem with heq | hmemr
        · have := congrArg Prod.snd heq
          simp at this
          rw [← hp12, this]
        · rw [hsx] at hpw
          have := (List.pairwise_cons.mp hpw).1 _ hmemr
          simpa [hp12] using this
      have hp1mem : p1.1 ∈ clauses :=
        (hmem2 p1 (by rw [hsx]; exact List.mem_cons_self _ _)).1
      have hdex : ¬ (∃ c ∈ clauses, (0.5 : ℚ) < relevance_score query c) := by
        intro hex
        exact absurd (hrel_ne_of_ex hex) (by simp [hre])
      cases rest with
      | nil =>
        have hfind2 : find_relevant_clauses query clauses = [p1.1] := by
          rw [hfind, if_pos hcond, hsx]
        have hcslen : clauses.length = 1 := by
          rw [← hlen_cs, hsx]; rfl
        refine ⟨?_, ?_, ?_, ?_, ?_⟩
        · rw [hfind2]; simp
        · intro _; rw [hfind2]; simp
        · rw [hfind2]; simp
        · intro hex; exact absurd hex hdex
        · intro _ _
          refine ⟨⟨p1.1, by rw [hfind2]; rfl, hp1mem, hmax⟩, ?_, ?_, ?_⟩
          · rw [hfind2, hcslen]
            simp
          · intro c hc
            rw [hfind2] at hc
            simp at hc
            rw [hc]; exact hp1mem
          · refine ⟨[], ?_, ?_⟩
            · rw [hfind2, List.append_nil]
              have := hall_perm
              rw [hsx] at this
              simpa using this
            · intro a _ b hb
              simp at hb
      | cons p2 t =>
        have hfind2 : find_relevant_clauses query clauses = [p1.1, p2.1] := by
          rw [hfind, if_pos hcond, hsx]
        have hp2sorted : p2 ∈ sorted := by
          rw [hsx]; exact List.mem_cons_of_mem _ (List.mem_cons_self _ _)
        have hp2mem : p2.1 ∈ clauses := (hmem2 p2 hp2sorted).1
        have hp22 : p2.2 = relevance_score query p2.1 := (hmem2 p2 hp2sorted).2
        have hp12 : p1.2 = relevance_score query p1.1 :=
          (hmem2 p1 (by rw [hsx]; exact List.mem_cons_self _ _)).2
        have hle : p2.2 ≤ p1.2 := by
          rw [hsx] at hpw
          exact (List.pairwise_cons.mp hpw).1 _ (List.mem_cons_self _ _)
        have hcslen : clauses.length = t.length + 2 := by
          rw [← hlen_cs, hsx]
          simp
        have hspw2 := hspw
        rw [hsx, List.map_cons, List.map_cons] at hspw2
        have hbound1 := (List.pairwise_cons.mp hspw2).1
        have hbound2 := (List.pairwise_cons.mp (List.pairwise_cons.mp hspw2).2).1
        refine ⟨?_, ?_, ?_, ?_, ?_⟩
        · rw [hfind2]; simp
        · intro _; rw [hfind2]; simp
        · rw [hfind2]
          simp only [List.Sorted, List.pairwise_cons]
          refine ⟨?_, by simp⟩
          intro b hb
          simp at hb
          rw [hb, ← hp12, ← hp22]
          exact hle
        · intro hex; exact absurd hex hdex
        · intro _ _
          refine ⟨⟨p1.1, by rw [hfind2]; rfl, hp1mem, hmax⟩, ?_, ?_, ?_⟩
          · rw [hfind2, hcslen]
            simp
          · intro c hc
            rw [hfind2] at hc
            simp at hc
            rcases hc with hc | hc
            · rw [hc]; exact hp1mem
            · rw [hc]; exact hp2mem
          · refine ⟨t.map (fun p => p.1), ?_, ?_⟩
            · rw [hfind2]
              have := hall_perm
              rw [hsx] at this
              simpa using this
            · intro a ha b hb
              rw [hfind2] at ha
              simp at ha
              rcases ha with ha | ha
              · subst ha
                exact hbound1 b (List.mem_cons_of_mem _ hb)
              · subst ha
                exact hbound2 b hb
    · -- main path: threshold filter taken
      have hfind3 : find_relevant_clauses query clauses = relevant := by
        rw [hfind, if_neg]
        rintro ⟨h1, _⟩
        rw [List.isEmpty_iff] at h1
        exact hre h1
      rw [hfind3]
      refine ⟨hrel_len, fun _ => hre, hrel_sorted, ?_, ?_⟩
      · intro _
        refine ⟨hrel_mem, ?_, ?_, ?_⟩
        · rw [hreldef, List.length_take, List.length_map, hfilter_len]
        · intro hle
          rw [hreldef]
          rw [List.take_of_length_le]
          · exact hfilter_perm
          · rw [List.length_map, hfilter_len]
            exact hle
        · refine ⟨((sorted.filter (fun p => decide ((0.5 : ℚ) < p.2))).map
            (fun p => p.1)).drop 5, ?_, ?_⟩
          · rw [hreldef, List.take_append_drop]
            exact hfilter_perm.symm
          · have hsplit := hMpw
            rw [← List.take_append_drop 5
              ((sorted.filter (fun p => decide ((0.5 : ℚ) < p.2))).map
                (fun p => p.1))] at hsplit
            have hcross := (List.pairwise_append.mp hsplit).2.2
            intro a ha b hb
            rw [hreldef] at ha
            exact hcross a ha b hb
      · intro hall _
        obtain ⟨c, hc⟩ := List.exists_mem_of_ne_nil relevant hre
        obtain ⟨hcc, hgt⟩ := hrel_mem c hc
        exact absurd (hall c hcc) (by linarith)

theorem C5_relevant_selection_witness :
    ([mkClause "a" .payment_terms 5] ≠ [])
    ∧ find_relevant_clauses "payment" [mkClause "a" .payment_terms 5] ≠ [] :=
  ⟨by decide, (C5_relevant_selection "payment" _).2.1 (by decide)⟩

/-! ### Clause post-processor deduplication (`agents/legal_analyzer.py`) -/

/-- `' '.join(clause.original_text.lower().split())`: the normalized text
used as the deduplication key. -/
def normText (s : String) : List Char :=
  List.intercalate [' '] (pySplitWs (pyLower s.toList))

/-- `LegalAnalyzerAgent._calculate_text_similarity`: Jaccard similarity of
the word sets. -/
def calculate_text_similarity (t1 t2 : List Char) : ℚ :=
  let words1 := (pySplitWs t1).dedup
  let words2 := (pySplitWs t2).dedup
  if words1 = [] ∨ words2 = [] then 0
  else ((words1.filter (fun w => words2.contains w)).length : ℚ)
    / ((words1 ++ words2.filter (fun w => !words1.contains w)).length : ℚ)

/-- The accepting loop of `LegalAnalyzerAgent._remove_duplicate_clauses`
(`seen` is the set of normalized texts of already-accepted clauses). -/
def remove_duplicate_clauses_go (seen : List (List Char)) :
    List LegalClause → List LegalClause
  | [] => []
  | c :: cs =>
    if normText c.original_text ∈ seen then
      remove_duplicate_clauses_go seen cs
    else if seen.any
        (fun t => calculate_text_similarity (normText c.original_text) t > 0.9) then
      remove_duplicate_clauses_go seen cs
    else c :: remove_duplicate_clauses_go (normText c.original_text :: seen) cs

/-- `LegalAnalyzerAgent._remove_duplicate_clauses`. -/
def remove_duplicate_clauses (clauses : List LegalClause) : List LegalClause :=
  remove_duplicate_clauses_go [] clauses

theorem dedup_go_idem (cs : List LegalClause) :
    ∀ seen, remove_duplicate_clauses_go seen (remove_duplicate_clauses_go seen cs)
      = remove_duplicate_clauses_go seen cs := by
  induction cs with
  | nil => intro seen; rfl
  | cons c cs ih =>
    intro seen
    by_cases h1 : normText c.original_text ∈ seen
    · rw [remove_duplicate_clauses_go, if_pos h1]
      exact ih seen
    · by_cases h2 : (seen.any
          (fun t => calculate_text_similarity (normText c.original_text) t > 0.9))
          = true
      · rw [remove_duplicate_clauses_go, if_neg h1, if_pos h2]
        exact ih seen
      · rw [remove_duplicate_clauses_go, if_neg h1, if_neg h2]
        rw [remove_duplicate_clauses_go, if_neg h1, if_neg h2]
        rw [ih (normText c.original_text :: seen)]

/-- C9: the clause deduplicator is idempotent — applying it to its own
output removes nothing further. -/
theorem C9_dedup_idempotent (clauses : List LegalClause) :
    remove_duplicate_clauses (remove_duplicate_clauses clauses)
      = remove_duplicate_clauses clauses :=
  dedup_go_idem clauses []

/-! ### Boundary sanitization (`services/modern_gemini_service.py` and
`agents/legal_analyzer.py`) -/

/-- JSON-like values of the raw collaborator response (floats are not
modelled; the analyzed fields are ints, strings, booleans, nulls and
lists). -/
inductive JVal
  | jint (n : Int)
  | jstr (s : String)
  | jbool (b : Bool)
  | jnull
  | jlist (xs : List JVal)

/-- Python `str()` on the modelled values (the list rendering elides the
element reprs; it is never inspected by the analyzed logic). -/
def pyStr : JVal → String
  | .jint n => toString n
  | .jstr s => s
  | .jbool b => if b then "True" else "False"
  | .jnull => "None"
  | .jlist _ => "[...]"

/-- Digit-run value for Python `int(str)` (underscore grouping is not
modelled). -/
def digitsVal (l : List Char) : Option Nat :=
  if l ≠ [] ∧ l.all Char.isDigit then
    some (l.foldl (fun acc c => acc * 10 + (c.toNat - '0'.toNat)) 0)
  else none

/-- Python `int` applied to a string: optional surrounding whitespace,
optional sign, digits; anything else raises. -/
def pyIntOfString (s : String) : Option Int :=
  match trimWs s.toList with
  | '-' :: rest => (digitsVal rest).map (fun n => -(n : Int))
  | '+' :: rest => (digitsVal rest).map (fun n => (n : Int))
  | t => (digitsVal t).map (fun n => (n : Int))

/-- Python `int(x)`: ints pass through, booleans become 0 or 1, numeric
strings are parsed, everything else raises (`none`). -/
def pyToInt : JVal → Option Int
  | .jint n => some n
  | .jbool b => some (if b then 1 else 0)
  | .jstr s => pyIntOfString s
  | .jnull => none
  | .jlist _ => none

/-- A raw enrichment response: each field either absent from the
dictionary (`none`) or holding an arbitrary JSON value. -/
structure RawAnalysis where
  clause_type : Option JVal
  obligations : Option JVal
  risk_score : Option JVal
  risk_explanation : Option JVal
  simplified_text : Option JVal
  concerns : Option JVal
  key_terms : Option JVal
  recommendations : Option JVal

/-- `result.get(key, []) if isinstance(result.get(key), list) else []`. -/
def asListD : Option JVal → List JVal
  | some (.jlist xs) => xs
  | _ => []

/-- The sanitized analysis dictionary built by `_validate_legal_analysis`. -/
structure ValidatedAnalysis where
  clause_type : JVal
  obligations : List JVal
  risk_score : Int
  risk_explanation : String
  simplified_text : String
  concerns : List JVal
  key_terms : List JVal
  recommendations : List JVal

/-- `ModernGeminiService._validate_legal_analysis`: `none` models the
`ValueError`/`TypeError` that `int(...)` raises on a value that cannot be
converted, which propagates out of the sanitization. -/
def validate_legal_analysis (r : RawAnalysis) : Option ValidatedAnalysis :=
  match pyToInt (r.risk_score.getD (.jint 5)) with
  | none => none
  | some n =>
    some { clause_type := r.clause_type.getD (.jstr "other"),
           obligations := asListD r.obligations,
           risk_score := max 1 (min 10 n),
           risk_explanation :=
             pyStr (r.risk_explanation.getD (.jstr "No explanation provided")),
           simplified_text := pyStr (r.simplified_text.getD (.jstr "")),
           concerns := asListD r.concerns,
           key_terms := asListD r.key_terms,
           recommendations := asListD r.recommendations }

/-- `ClauseType(value)` as `pydantic`/`enum` performs it: the string must
equal one of the thirteen enum values. -/
def clauseTypeOfValue : String → Option ClauseType
  | "payment_terms" => some .payment_terms
  | "termination" => some .termination
  | "liability" => some .liability
  | "privacy" => some .privacy
  | "indemnification" => some .indemnification
  | "dispute_resolution" => some .dispute_resolution
  | "intellectual_property" => some .intellectual_property
  | "confidentiality" => some .confidentiality
  | "force_majeure" => some .force_majeure
  | "governing_law" => some .governing_law
  | "amendment" => some .amendment
  | "severability" => some .severability
  | "other" => some .other
  | _ => none

/-- The `try: ClauseType(...) except ValueError: ClauseType.OTHER`
coercion of `LegalAnalyzerAgent._analyze_single_clause` (a non-string
value also raises and falls back to `other`). -/
def parseClauseType (v : JVal) : ClauseType :=
  match v with
  | .jstr s => (clauseTypeOfValue s).getD .other
  | _ => .other

/-- The response that refutes C8 as stated: `risk_score` holds a string
`int(...)` cannot convert. -/
def bad_response : RawAnalysis :=
  { clause_type := none, obligations := none,
    risk_score := some (.jstr "invalid"),
    risk_explanation := none, simplified_text := none, concerns := none,
    key_terms := none, recommendations := none }

/-- C8 counterexample: on a response whose `risk_score` is the
non-numeric string `"invalid"`, the sanitization raises (returns no
record at all) instead of substituting 5 — the claim that an invalid
value is replaced by 5 is false. -/
theorem C8_sanitization_counterexample :
    validate_legal_analysis bad_response = none
    ∧ ¬ ∃ a, validate_legal_analysis bad_response = some a
        ∧ a.risk_score = 5 := by
  refine ⟨rfl, ?_⟩
  rintro ⟨a, ha, _⟩
  rw [show validate_legal_analysis bad_response = none from rfl] at ha
  exact Option.noConfusion ha

/-- C8 amended: the sanitized risk score is the clamp to the range 1 to 10
of Python `int` applied to the `risk_score` field (default 5 when the
field is missing); when the field holds a value `int` cannot convert the
sanitization raises instead of substituting 5; every successfully
sanitized record has its risk score in the range 1 to 10; and the
clause-type coercion maps every string outside the thirteen enum values
(and every non-string) to `other` while preserving the thirteen values. -/
theorem C8_sanitization_amended (r : RawAnalysis) (v : JVal) :
    ((validate_legal_analysis r).map (fun a => a.risk_score)
      = (pyToInt (r.risk_score.getD (.jint 5))).map (fun n => max 1 (min 10 n)))
    ∧ (∀ a, validate_legal_analysis r = some a →
        1 ≤ a.risk_score ∧ a.risk_score ≤ 10)
    ∧ (r.risk_score = none →
        (validate_legal_analysis r).map (fun a => a.risk_score) = some 5)
    ∧ ((∀ t : ClauseType, v ≠ .jstr t.value) → parseClauseType v = .other)
    ∧ (∀ t : ClauseType, parseClauseType (.jstr t.value) = t) := by
  refine ⟨?_, ?_, ?_, ?_, ?_⟩
  · unfold validate_legal_analysis
    cases pyToInt (r.risk_score.getD (.jint 5)) <;> simp
  · intro a ha
    unfold validate_legal_analysis at ha
    cases hp : pyToInt (r.risk_score.getD (.jint 5)) with
    | none => rw [hp] at ha; exact Option.noConfusion ha
    | some n =>
      rw [hp] at ha
      have := Option.some.inj ha
      rw [← this]
      constructor
      · exact le_max_left 1 _
      · exact max_le (by norm_num) (min_le_left 10 n)
  · intro h
    unfold validate_legal_analysis
    rw [h]
    rfl
  · intro h
    cases v with
    | jstr s =>
      show (clauseTypeOfValue s).getD .other = .other
      have hnone : clauseTypeOfValue s = none := by
        unfold clauseTypeOfValue
        split
        · exact absurd rfl (h .payment_terms)
        · exact absurd rfl (h .termination)
        · exact absurd rfl (h .liability)
        · exact absurd rfl (h .privacy)
        · exact absurd rfl (h .indemnification)
        · exact absurd rfl (h .dispute_resolution)
        · exact absurd rfl (h .intellectual_property)
        · exact absurd rfl (h .confidentiality)
        · exact absurd rfl (h .force_majeure)
        · exact absurd rfl (h .governing_law)
        · exact absurd rfl (h .amendment)
        · exact absurd rfl (h .severability)
        · exact absurd rfl (h .other)
        · rfl
      rw [hnone]
      rfl
    | jint n => rfl
    | jbool b => rfl
    | jnull => rfl
    | jlist xs => rfl
  · intro t
    cases t <;> rfl

theorem C8_sanitization_amended_witness :
    (({ clause_type := none, obligations := none, risk_score := none,
        risk_explanation := none, simplified_text := none, concerns := none,
        key_terms := none, recommendations := none } : RawAnalysis).risk_score
      = none)
    ∧ (validate_legal_analysis
        { clause_type := none, obligations := none, risk_score := none,
          risk_explanation := none, simplified_text := none, concerns := none,
          key_terms := none, recommendations := none }).map
          (fun a => a.risk_score) = some 5 :=
  ⟨rfl,
    (C8_sanitization_amended
      { clause_type := none, obligations := none, risk_score := none,
        risk_explanation := none, simplified_text := none, concerns := none,
        key_terms := none, recommendations := none } .jnull).2.2.1 rfl⟩
